import Mathlib

/-! Shallow embedding of src/FieldSelector.ts (class FieldSelector) and
proofs about it.

Modelling conventions, mirroring the JavaScript runtime semantics of the
TypeScript source:
- a JS `Set<string>` is modelled by its insertion-ordered element list
  without duplicates (`jsSet`); `Set.add` keeps the first occurrence;
- a JS `Record` used as a map is modelled as an association list in
  insertion order, with `lookupKey` for own-property access;
- JS truthiness matters in three places of the source and is modelled
  explicitly: `config.x || default` treats the empty string as absent,
  `if (queryFields)` treats the empty string as absent but any array
  (even empty) as present, and `if (!fieldsInput)` treats the empty
  string as no input;
- `this.fieldGroups[...]` in parseFieldsInput is an unguarded property
  read on a plain object, so it can also find members inherited from
  `Object.prototype`; those are truthy but are not Sets, and the
  subsequent `groupFields.forEach` call then throws a TypeError.
  `jsRecordLookup` models this three-way outcome, and the functions that
  can throw return `Except String`. -/

namespace FieldSelectorModel

/-- A query or header value: JS `string | string[]`. -/
inductive StrOrList where
  | str : String → StrOrList
  | list : List String → StrOrList
deriving DecidableEq

/-- JS truthiness of such a value: the empty string is falsy, every other
string is truthy, and an array is always truthy (even when empty). -/
def StrOrList.truthy : StrOrList → Bool
  | .str s => s != ""
  | .list _ => true

/-- The source's `Array.isArray(v) ? v[0] : v`: the first element of an
empty array is `undefined`, modelled as `none`. -/
def StrOrList.firstVal : StrOrList → Option String
  | .str s => some s
  | .list l => l.head?

/-- Own-property lookup `m[k]` on a JS object used as a string-keyed map,
modelled as an association list in insertion order. -/
def lookupKey {α : Type} (m : List (String × α)) (k : String) : Option α :=
  (m.find? (fun kv => kv.1 == k)).map (fun kv => kv.2)

/-- The `RequestParams` interface from src/types.ts: optional `query` and
`headers` maps from string keys to `string | string[]`. -/
structure RequestParams where
  query : Option (List (String × StrOrList))
  headers : Option (List (String × StrOrList))
deriving DecidableEq

/-- The `FieldSelectorOptions` interface: available fields, default
fields, and an optional group-name → field-list map. -/
structure FieldSelectorOptions where
  availableFields : List String
  defaultFields : List String
  fieldGroups : Option (List (String × List String))
deriving DecidableEq

/-- The `FieldSelectorConfig` interface: each entry optional. -/
structure FieldSelectorConfig where
  queryParam : Option String
  headerName : Option String
  separator : Option String
deriving DecidableEq

/-- The source's `config.x || defaultValue`: the default is used when the
option is absent or the empty string (JS falsy). -/
def orDefault (o : Option String) (d : String) : String :=
  match o with
  | some s => if s == "" then d else s
  | none => d

/-- The fully resolved configuration (`Required<FieldSelectorConfig>`). -/
structure ResolvedConfig where
  queryParam : String
  headerName : String
  separator : String
deriving DecidableEq

/-- JS `Set.prototype.add` on the insertion-ordered element-list model of
a Set: a new element is appended, an existing one leaves the set as is. -/
def setAdd (l : List String) (x : String) : List String :=
  if x ∈ l then l else l ++ [x]

/-- The element list of `new Set(xs)`: elements in first-occurrence
order, duplicates dropped. -/
def jsSet (xs : List String) : List String :=
  xs.foldl setAdd []

/-- The private state of a constructed `FieldSelector` instance. -/
structure FieldSelector where
  availableFields : List String
  defaultFields : List String
  fieldGroups : List (String × List String)
  config : ResolvedConfig
deriving DecidableEq

/-- The group-validation loop of the constructor
(`Object.entries(fieldGroups).forEach`): for each group in map order,
if some field of the group is not an available field, throw an Error
naming the group and joining all of the group's fields; otherwise store
`new Set(fields)` under the group's name. -/
def validateGroups (avail : List String) :
    List (String × List String) → Except String (List (String × List String))
  | [] => .ok []
  | (g, fs) :: rest =>
    if fs.all (fun f => avail.contains f) then
      match validateGroups avail rest with
      | .ok r => .ok ((g, jsSet fs) :: r)
      | .error e => .error e
    else
      .error ("Group " ++ g ++ " contains invalid fields: " ++ String.intercalate ", " fs)

/-- The `FieldSelector` constructor: validates availableFields,
defaultFields and fieldGroups in that order (throw modelled as
`.error` carrying the Error message), then stores the deduplicating
Sets and the defaulted configuration. -/
def construct (options : FieldSelectorOptions) (config : FieldSelectorConfig) :
    Except String FieldSelector :=
  if options.availableFields.isEmpty then
    .error "availableFields must be provided and non-empty"
  else if options.defaultFields.isEmpty then
    .error "defaultFields must be provided and non-empty"
  else if !(options.defaultFields.all (fun f => options.availableFields.contains f)) then
    .error "Default fields has values not present in available fields"
  else
    match validateGroups options.availableFields (options.fieldGroups.getD []) with
    | .error e => .error e
    | .ok gs =>
      .ok {
        availableFields := jsSet options.availableFields
        defaultFields := jsSet options.defaultFields
        fieldGroups := gs
        config := {
          queryParam := orDefault config.queryParam "fields"
          headerName := orDefault config.headerName "x-fields"
          separator := orDefault config.separator ","
        }
      }

/-- The header half of `extractFieldsFromRequest`: read
`request.headers?.[headerName]`; if truthy, return its first value,
otherwise return null. -/
def extractFromHeaders (sel : FieldSelector) (request : RequestParams) : Option String :=
  match request.headers.bind (fun h => lookupKey h sel.config.headerName) with
  | some v => if v.truthy then v.firstVal else none
  | none => none

/-- `extractFieldsFromRequest`: read `request.query?.[queryParam]`; if
truthy, return its first value (ignoring headers entirely); otherwise
fall through to the header lookup. -/
def extractFieldsFromRequest (sel : FieldSelector) (request : RequestParams) : Option String :=
  match request.query.bind (fun q => lookupKey q sel.config.queryParam) with
  | some v => if v.truthy then v.firstVal else extractFromHeaders sel request
  | none => extractFromHeaders sel request

/-- Helper for the split: when `sep` is a leading segment of `l`, return
the remainder of `l` after it. -/
def takeMatch : List Char → List Char → Option (List Char)
  | [], l => some l
  | _ :: _, [] => none
  | c :: cs, d :: ds => if c == d then takeMatch cs ds else none

/-- Worker for the split, structurally recursive on a fuel counter so the
kernel can evaluate it (Lean's own `String.splitOn` is defined by
position arithmetic the kernel cannot reduce). Scans left to right,
cutting at each leftmost, non-overlapping occurrence of the separator,
exactly as JS `String.prototype.split`. The fuel is always sufficient at
call sites (one character is consumed per step). -/
def jsSplitGo (sep : List Char) : Nat → List Char → List Char → List (List Char)
  | 0, _, cur => [cur.reverse]
  | _ + 1, [], cur => [cur.reverse]
  | fuel + 1, c :: rest, cur =>
    match takeMatch sep (c :: rest) with
    | some rest2 => cur.reverse :: jsSplitGo sep fuel rest2 []
    | none => jsSplitGo sep fuel rest (c :: cur)

/-- JS `s.split(sep)` for a non-empty separator. The empty-separator
guard is unreachable from a constructed selector: `orDefault` never
yields an empty separator. -/
def jsSplit (s sep : String) : List String :=
  if sep.data.isEmpty then [s]
  else (jsSplitGo sep.data (s.data.length + 1) s.data []).map String.mk

/-- JS `s.trim()`: drop whitespace from both ends. -/
def jsTrim (s : String) : String :=
  String.mk (((s.data.dropWhile Char.isWhitespace).reverse.dropWhile Char.isWhitespace).reverse)

/-- The source's `field.startsWith('@')`. -/
def startsWithAtSign (s : String) : Bool :=
  match s.data with
  | c :: _ => c == '@'
  | [] => false

/-- The source's `field.slice(1)`. -/
def dropFirstChar (s : String) : String :=
  String.mk (s.data.drop 1)

/-- The own-property keys of `Object.prototype` in a standard JS runtime.
A property read on a plain object falls back to these inherited members
when no own property matches; each of them is a truthy value (a function,
or the prototype object itself for `__proto__`). -/
def objectPrototypeMembers : List String :=
  ["constructor", "hasOwnProperty", "isPrototypeOf", "propertyIsEnumerable",
   "toLocaleString", "toString", "valueOf", "__proto__",
   "__defineGetter__", "__defineSetter__", "__lookupGetter__", "__lookupSetter__"]

/-- Outcome of the JS property read `this.fieldGroups[key]` on the plain
object the constructor populates: an own property (always a Set of
fields), an inherited truthy `Object.prototype` member that is not a
Set, or `undefined`. -/
inductive JsLookup where
  | ownSet : List String → JsLookup
  | inherited : JsLookup
  | missing : JsLookup

/-- Full-JS-semantics record lookup on the field-groups object,
prototype chain included. -/
def jsRecordLookup (groups : List (String × List String)) (key : String) : JsLookup :=
  match lookupKey groups key with
  | some fs => .ownSet fs
  | none => if objectPrototypeMembers.contains key then .inherited else .missing

/-- The token loop of `parseFieldsInput`, accumulating into the selected
Set. A token starting with `@` whose remainder reads back a truthy value
from the groups object either expands an own-property group, or — when
the read found an inherited `Object.prototype` member — crashes at
`groupFields.forEach` with a TypeError. Any other token is added iff it
is an available field. -/
def parseTokens (sel : FieldSelector) (acc : List String) :
    List String → Except String (List String)
  | [] => .ok acc
  | field :: rest =>
    if startsWithAtSign field then
      match jsRecordLookup sel.fieldGroups (dropFirstChar field) with
      | .ownSet groupFields => parseTokens sel (groupFields.foldl setAdd acc) rest
      | .inherited => .error "TypeError: groupFields.forEach is not a function"
      | .missing =>
        parseTokens sel (if sel.availableFields.contains field then setAdd acc field else acc) rest
    else
      parseTokens sel (if sel.availableFields.contains field then setAdd acc field else acc) rest

/-- `parseFieldsInput`: split the input on the separator, trim each
token, and run the token loop starting from an empty Set. -/
def parseFieldsInput (sel : FieldSelector) (input : String) : Except String (List String) :=
  parseTokens sel [] ((jsSplit input sel.config.separator).map jsTrim)

/-- `getSelectedFields`: extract the raw input (default fields when it is
null, undefined or the empty string — the `!fieldsInput` truthiness
check), parse it, and fall back to default fields when nothing valid was
selected. -/
def getSelectedFields (sel : FieldSelector) (request : RequestParams) :
    Except String (List String) :=
  match extractFieldsFromRequest sel request with
  | none => .ok sel.defaultFields
  | some input =>
    if input == "" then .ok sel.defaultFields
    else
      match parseFieldsInput sel input with
      | .error e => .error e
      | .ok selectedFields =>
        if selectedFields.isEmpty then .ok sel.defaultFields else .ok selectedFields

/-- `filterObject`: iterate `Object.entries(obj)` in order and keep the
entries whose key is in the selected set. The object is modelled as its
ordered entry list. -/
def filterObject {V : Type} (obj : List (String × V)) (selectedFields : List String) :
    List (String × V) :=
  obj.filter (fun kv => selectedFields.contains kv.1)

/-- `getAvailableFields`: `Array.from` of the stored Set, i.e. its
insertion-ordered element list. -/
def getAvailableFields (sel : FieldSelector) : List String :=
  sel.availableFields

/-- `getDefaultFields`: `Array.from` of the stored Set. -/
def getDefaultFields (sel : FieldSelector) : List String :=
  sel.defaultFields

/-! Basic lemmas about the Set model. -/

theorem mem_setAdd {l : List String} {x y : String} :
    y ∈ setAdd l x ↔ y ∈ l ∨ y = x := by
  unfold setAdd
  split
  · rename_i hx
    constructor
    · exact fun h => Or.inl h
    · rintro (h | rfl)
      · exact h
      · exact hx
  · simp [List.mem_append]

theorem mem_foldl_setAdd {xs : List String} :
    ∀ {acc : List String} {y : String}, y ∈ xs.foldl setAdd acc ↔ y ∈ acc ∨ y ∈ xs := by
  induction xs with
  | nil => simp
  | cons x xs ih =>
    intro acc y
    simp only [List.foldl_cons, ih, mem_setAdd, List.mem_cons]
    tauto

theorem mem_jsSet {xs : List String} {y : String} : y ∈ jsSet xs ↔ y ∈ xs := by
  unfold jsSet
  simp [mem_foldl_setAdd]

theorem jsSet_ne_nil {xs : List String} (h : xs ≠ []) : jsSet xs ≠ [] := by
  match xs, h with
  | x :: rest, _ =>
    intro hnil
    have : x ∈ jsSet (x :: rest) := mem_jsSet.mpr (List.mem_cons_self x rest)
    rw [hnil] at this
    exact absurd this (List.not_mem_nil x)

/-! Inversion lemmas for the constructor. -/

theorem validateGroups_ok_mem {avail : List String} :
    ∀ {gl gs : List (String × List String)}, validateGroups avail gl = .ok gs →
      ∀ p ∈ gs, ∀ f ∈ p.2, f ∈ avail := by
  intro gl
  induction gl with
  | nil =>
    intro gs h
    simp only [validateGroups] at h
    cases h
    simp
  | cons gp rest ih =>
    intro gs h
    obtain ⟨g, fs⟩ := gp
    simp only [validateGroups] at h
    split at h
    · rename_i hall
      cases hrec : validateGroups avail rest with
      | error e => rw [hrec] at h; cases h
      | ok r =>
        rw [hrec] at h
        cases h
        intro p hp f hf
        rcases List.mem_cons.mp hp with hhead | htail
        · subst hhead
          have hfs : f ∈ fs := mem_jsSet.mp hf
          have := List.all_eq_true.mp hall f hfs
          simpa [List.contains, List.elem_iff] using this
        · exact ih hrec p htail f hf
    · cases h

theorem construct_ok_inv {opts : FieldSelectorOptions} {cfg : FieldSelectorConfig}
    {sel : FieldSelector} (h : construct opts cfg = .ok sel) :
    sel.availableFields = jsSet opts.availableFields ∧
    sel.defaultFields = jsSet opts.defaultFields ∧
    validateGroups opts.availableFields (opts.fieldGroups.getD []) = .ok sel.fieldGroups ∧
    opts.availableFields ≠ [] ∧ opts.defaultFields ≠ [] := by
  unfold construct at h
  split at h
  · cases h
  · rename_i hav
    split at h
    · cases h
    · rename_i hdf
      split at h
      · cases h
      · cases hv : validateGroups opts.availableFields (opts.fieldGroups.getD []) with
        | error e => rw [hv] at h; cases h
        | ok gs =>
          rw [hv] at h
          cases h
          refine ⟨rfl, rfl, rfl, ?_, ?_⟩
          · exact List.isEmpty_eq_false.mp (Bool.of_not_eq_true hav)
          · exact List.isEmpty_eq_false.mp (Bool.of_not_eq_true hdf)

theorem jsRecordLookup_ownSet {groups : List (String × List String)} {key : String}
    {gfs : List String} (h : jsRecordLookup groups key = .ownSet gfs) :
    ∃ p ∈ groups, p.2 = gfs := by
  unfold jsRecordLookup at h
  split at h
  · rename_i fs hfs
    cases h
    unfold lookupKey at hfs
    cases hf : groups.find? (fun kv => kv.1 == key) with
    | none => rw [hf] at hfs; cases hfs
    | some kv =>
      rw [hf] at hfs
      cases hfs
      exact ⟨kv, List.mem_of_find?_eq_some hf, rfl⟩
  · split at h
    · cases h
    · cases h

theorem mem_accAdd {sel : FieldSelector} {acc : List String} {field a : String}
    (hacc : ∀ b ∈ acc, b ∈ sel.availableFields)
    (ha : a ∈ (if sel.availableFields.contains field then setAdd acc field else acc)) :
    a ∈ sel.availableFields := by
  split at ha
  · rename_i hc
    rcases mem_setAdd.mp ha with h1 | rfl
    · exact hacc a h1
    · simpa [List.contains, List.elem_iff] using hc
  · exact hacc a ha

theorem parseTokens_subset (sel : FieldSelector)
    (hg : ∀ p ∈ sel.fieldGroups, ∀ f ∈ p.2, f ∈ sel.availableFields) :
    ∀ {toks acc r : List String}, (∀ a ∈ acc, a ∈ sel.availableFields) →
      parseTokens sel acc toks = .ok r → ∀ f ∈ r, f ∈ sel.availableFields := by
  intro toks
  induction toks with
  | nil =>
    intro acc r hacc h
    cases h
    exact hacc
  | cons field rest ih =>
    intro acc r hacc h
    simp only [parseTokens] at h
    split at h
    · cases hlk : jsRecordLookup sel.fieldGroups (dropFirstChar field) with
      | ownSet gfs =>
        rw [hlk] at h
        refine ih ?_ h
        intro a ha
        rcases mem_foldl_setAdd.mp ha with h1 | h2
        · exact hacc a h1
        · obtain ⟨p, hp, hpe⟩ := jsRecordLookup_ownSet hlk
          exact hg p hp a (hpe ▸ h2)
      | inherited =>
        rw [hlk] at h
        cases h
      | missing =>
        rw [hlk] at h
        exact ih (fun a ha => mem_accAdd hacc ha) h
    · exact ih (fun a ha => mem_accAdd hacc ha) h

/-- C1: for every constructed selector and every request, whenever
getSelectedFields returns a set, that set contains only members of the
available-fields set, or it is exactly the default-fields set. -/
theorem getSelectedFields_subset_or_default
    (opts : FieldSelectorOptions) (cfg : FieldSelectorConfig) (sel : FieldSelector)
    (hc : construct opts cfg = .ok sel) (req : RequestParams) (r : List String)
    (hr : getSelectedFields sel req = .ok r) :
    (∀ f ∈ r, f ∈ sel.availableFields) ∨ r = sel.defaultFields := by
  obtain ⟨hav, -, hvg, -, -⟩ := construct_ok_inv hc
  have hg : ∀ p ∈ sel.fieldGroups, ∀ f ∈ p.2, f ∈ sel.availableFields := by
    intro p hp f hf
    rw [hav]
    exact mem_jsSet.mpr (validateGroups_ok_mem hvg p hp f hf)
  unfold getSelectedFields at hr
  split at hr
  · cases hr
    exact Or.inr rfl
  · split at hr
    · cases hr
      exact Or.inr rfl
    · split at hr
      · cases hr
      · rename_i s hp
        split at hr
        · cases hr
          exact Or.inr rfl
        · cases hr
          unfold parseFieldsInput at hp
          exact Or.inl (parseTokens_subset sel hg
            (fun a ha => absurd ha (List.not_mem_nil a)) hp)

/-- Witness for C1 at a concrete selector and request. -/
theorem getSelectedFields_subset_or_default_witness :
    (∀ f ∈ ["a"],
        f ∈ (FieldSelector.mk ["a"] ["a"] [] ⟨"fields", "x-fields", ","⟩).availableFields) ∨
      ["a"] = (FieldSelector.mk ["a"] ["a"] [] ⟨"fields", "x-fields", ","⟩).defaultFields :=
  getSelectedFields_subset_or_default ⟨["a"], ["a"], none⟩ ⟨none, none, none⟩
    (FieldSelector.mk ["a"] ["a"] [] ⟨"fields", "x-fields", ","⟩) rfl
    ⟨none, none⟩ ["a"] rfl

/-- C9: for every successfully constructed selector and every request,
any set that getSelectedFields returns is non-empty. -/
theorem getSelectedFields_nonempty
    (opts : FieldSelectorOptions) (cfg : FieldSelectorConfig) (sel : FieldSelector)
    (hc : construct opts cfg = .ok sel) (req : RequestParams) (r : List String)
    (hr : getSelectedFields sel req = .ok r) : r ≠ [] := by
  obtain ⟨-, hdf, -, -, hne⟩ := construct_ok_inv hc
  have hdef : sel.defaultFields ≠ [] := by
    rw [hdf]
    exact jsSet_ne_nil hne
  unfold getSelectedFields at hr
  split at hr
  · cases hr
    exact hdef
  · split at hr
    · cases hr
      exact hdef
    · split at hr
      · cases hr
      · split at hr
        · cases hr
          exact hdef
        · rename_i hse
          cases hr
          exact List.isEmpty_eq_false.mp (Bool.of_not_eq_true hse)

/-- Witness for C9 at a concrete selector and request. -/
theorem getSelectedFields_nonempty_witness :
    getSelectedFields (FieldSelector.mk ["b"] ["b"] [] ⟨"fields", "x-fields", ","⟩)
        ⟨none, none⟩ = .ok ["b"] ∧ (["b"] : List String) ≠ [] :=
  ⟨rfl, getSelectedFields_nonempty ⟨["b"], ["b"], none⟩ ⟨none, none, none⟩
    (FieldSelector.mk ["b"] ["b"] [] ⟨"fields", "x-fields", ","⟩) rfl
    ⟨none, none⟩ ["b"] rfl⟩

/-- C2: evaluation of the code at a failing input. A selector constructed
with no field groups at all still crashes on the client selection string
"@hasOwnProperty": the unguarded `this.fieldGroups[...]` read finds the
inherited `Object.prototype.hasOwnProperty` function, which is truthy, and
the following `groupFields.forEach` call throws a TypeError instead of
silently discarding the unknown group token and returning the defaults. -/
theorem getSelectedFields_throws_on_inherited_group :
    construct ⟨["id"], ["id"], none⟩ ⟨none, none, none⟩ =
      .ok (FieldSelector.mk ["id"] ["id"] [] ⟨"fields", "x-fields", ","⟩) ∧
    getSelectedFields (FieldSelector.mk ["id"] ["id"] [] ⟨"fields", "x-fields", ","⟩)
        ⟨some [("fields", .str "@hasOwnProperty")], none⟩ =
      .error "TypeError: groupFields.forEach is not a function" :=
  ⟨rfl, rfl⟩

/-- C3 counterexample: the query value under queryParam is present (it is
the empty string), yet the header is consulted and determines the result,
where the claim mandates the default set. Selector: available fields a, b;
default field a; header selects b. -/
theorem query_present_but_header_consulted :
    construct ⟨["a", "b"], ["a"], none⟩ ⟨none, none, none⟩ =
      .ok (FieldSelector.mk ["a", "b"] ["a"] [] ⟨"fields", "x-fields", ","⟩) ∧
    lookupKey [("fields", StrOrList.str "")] "fields" = some (.str "") ∧
    getSelectedFields (FieldSelector.mk ["a", "b"] ["a"] [] ⟨"fields", "x-fields", ","⟩)
        ⟨some [("fields", .str "")], some [("x-fields", .str "b")]⟩ = .ok ["b"] ∧
    (FieldSelector.mk ["a", "b"] ["a"] [] ⟨"fields", "x-fields", ","⟩).defaultFields = ["a"] ∧
    (["b"] : List String) ≠ ["a"] :=
  ⟨rfl, rfl, rfl, rfl, by decide⟩

/-- C3 amended: query[queryParam] is read first; whenever its value is
present and truthy (a non-empty string, or any sequence), it is used —
first element only for a sequence — without consulting the headers (the
result does not depend on hs); when the query value is absent or falsy
(the empty string), headers[headerName] is read the same way; and when
extraction yields nothing, the default fields are returned with no
parsing. -/
theorem extract_query_precedence (sel : FieldSelector)
    (q hs : Option (List (String × StrOrList))) :
    (∀ v, (q.bind fun m => lookupKey m sel.config.queryParam) = some v → v.truthy = true →
        extractFieldsFromRequest sel ⟨q, hs⟩ = v.firstVal) ∧
    (∀ v, (q.bind fun m => lookupKey m sel.config.queryParam) = some v → v.truthy = false →
        extractFieldsFromRequest sel ⟨q, hs⟩ = extractFromHeaders sel ⟨q, hs⟩) ∧
    ((q.bind fun m => lookupKey m sel.config.queryParam) = none →
        extractFieldsFromRequest sel ⟨q, hs⟩ = extractFromHeaders sel ⟨q, hs⟩) ∧
    (extractFieldsFromRequest sel ⟨q, hs⟩ = none →
        getSelectedFields sel ⟨q, hs⟩ = .ok sel.defaultFields) := by
  refine ⟨?_, ?_, ?_, ?_⟩
  · intro v hv ht
    unfold extractFieldsFromRequest
    rw [hv]
    simp [ht]
  · intro v hv ht
    unfold extractFieldsFromRequest
    rw [hv]
    simp [ht]
  · intro hv
    unfold extractFieldsFromRequest
    rw [hv]
  · intro hex
    unfold getSelectedFields
    rw [hex]

/-- Witness for C3 amended: a truthy query value is used and the header
(which names a different field) is ignored. -/
theorem extract_query_precedence_witness :
    extractFieldsFromRequest (FieldSelector.mk ["a", "b"] ["a"] [] ⟨"fields", "x-fields", ","⟩)
        ⟨some [("fields", .str "a")], some [("x-fields", .str "b")]⟩ = some "a" :=
  (extract_query_precedence (FieldSelector.mk ["a", "b"] ["a"] [] ⟨"fields", "x-fields", ","⟩)
    (some [("fields", .str "a")]) (some [("x-fields", .str "b")])).1 (.str "a") rfl rfl

/-- C10: a present but empty sequence under queryParam is truthy, so it is
taken; its first element is undefined, so extraction yields no raw string
— for every possible headers value, the header is not consulted — and
getSelectedFields returns the default fields. -/
theorem empty_sequence_query_yields_defaults (sel : FieldSelector)
    (q hs : Option (List (String × StrOrList)))
    (h : (q.bind fun m => lookupKey m sel.config.queryParam) = some (.list [])) :
    extractFieldsFromRequest sel ⟨q, hs⟩ = none ∧
    getSelectedFields sel ⟨q, hs⟩ = .ok sel.defaultFields := by
  have hex : extractFieldsFromRequest sel ⟨q, hs⟩ = none := by
    unfold extractFieldsFromRequest
    rw [h]
    rfl
  refine ⟨hex, ?_⟩
  unfold getSelectedFields
  rw [hex]

/-- Witness for C10 at a concrete selector with a header present. -/
theorem empty_sequence_query_yields_defaults_witness :
    extractFieldsFromRequest (FieldSelector.mk ["a", "b"] ["b"] [] ⟨"fields", "x-fields", ","⟩)
        ⟨some [("fields", .list [])], some [("x-fields", .str "a")]⟩ = none ∧
    getSelectedFields (FieldSelector.mk ["a", "b"] ["b"] [] ⟨"fields", "x-fields", ","⟩)
        ⟨some [("fields", .list [])], some [("x-fields", .str "a")]⟩ = .ok ["b"] :=
  empty_sequence_query_yields_defaults
    (FieldSelector.mk ["a", "b"] ["b"] [] ⟨"fields", "x-fields", ","⟩)
    (some [("fields", .list [])]) (some [("x-fields", .str "a")]) rfl

/-- Specification-side description of what the accessors actually return:
the input list with duplicates removed, keeping the first occurrence of
each element, in the original order. -/
def eraseDupKeepFirst : List String → List String
  | [] => []
  | x :: xs => x :: eraseDupKeepFirst (xs.filter (fun y => y != x))
  termination_by l => l.length
  decreasing_by
    simp_wf
    exact Nat.lt_succ_of_le (List.length_filter_le _ _)

theorem foldl_setAdd_eraseDup (l : List String) :
    ∀ acc, l.foldl setAdd acc =
      acc ++ eraseDupKeepFirst (l.filter (fun y => !(acc.contains y))) := by
  induction l with
  | nil =>
    intro acc
    simp [eraseDupKeepFirst]
  | cons x xs ih =>
    intro acc
    simp only [List.foldl_cons, List.filter_cons]
    by_cases hx : x ∈ acc
    · have hc : (!(acc.contains x)) = false := by
        simp [List.contains, List.elem_iff, hx]
      rw [hc]
      have hs : setAdd acc x = acc := by simp [setAdd, hx]
      rw [if_neg (by simp), hs, ih]
    · have hc : (!(acc.contains x)) = true := by
        simp [List.contains, List.elem_iff, hx]
      rw [hc]
      have hs : setAdd acc x = acc ++ [x] := by simp [setAdd, hx]
      rw [if_pos rfl, hs, ih]
      rw [eraseDupKeepFirst, List.filter_filter]
      have hpred : (fun y => !((acc ++ [x]).contains y)) =
          (fun y => (!(acc.contains y)) && (y != x)) := by
        funext y
        by_cases h1 : y ∈ acc
        · simp [List.contains, List.elem_iff, h1, List.mem_append]
        · by_cases h2 : y = x
          · subst h2
            simp [List.contains, List.elem_iff, h1, List.mem_append]
          · simp [List.contains, List.elem_iff, h1, h2, List.mem_append]
      rw [hpred]
      simp [List.append_assoc, Bool.and_comm]

theorem jsSet_eq_eraseDupKeepFirst (l : List String) :
    jsSet l = eraseDupKeepFirst l := by
  unfold jsSet
  rw [foldl_setAdd_eraseDup]
  have : (fun y => !(([] : List String).contains y)) = fun _ => true := by
    funext y
    rfl
  rw [this, List.filter_true, List.nil_append]

theorem eraseDupKeepFirst_sublist_len :
    ∀ (n : Nat) (l : List String), l.length ≤ n → (eraseDupKeepFirst l).Sublist l := by
  intro n
  induction n with
  | zero =>
    intro l hl
    rw [List.length_eq_zero.mp (Nat.le_zero.mp hl)]
    rw [eraseDupKeepFirst]
  | succ n ih =>
    intro l hl
    match l with
    | [] => rw [eraseDupKeepFirst]
    | x :: xs =>
      rw [eraseDupKeepFirst]
      refine List.Sublist.cons₂ x ?_
      refine (ih _ ?_).trans (List.filter_sublist xs)
      exact le_trans (List.length_filter_le _ _) (Nat.le_of_succ_le_succ hl)

theorem eraseDupKeepFirst_sublist (l : List String) :
    (eraseDupKeepFirst l).Sublist l :=
  eraseDupKeepFirst_sublist_len l.length l (le_refl _)

theorem eraseDupKeepFirst_nodup_len :
    ∀ (n : Nat) (l : List String), l.length ≤ n → (eraseDupKeepFirst l).Nodup := by
  intro n
  induction n with
  | zero =>
    intro l hl
    rw [List.length_eq_zero.mp (Nat.le_zero.mp hl)]
    rw [eraseDupKeepFirst]
    exact List.nodup_nil
  | succ n ih =>
    intro l hl
    match l with
    | [] =>
      rw [eraseDupKeepFirst]
      exact List.nodup_nil
    | x :: xs =>
      rw [eraseDupKeepFirst]
      have hlen : (xs.filter (fun y => y != x)).length ≤ n :=
        le_trans (List.length_filter_le _ _) (Nat.le_of_succ_le_succ hl)
      refine List.Nodup.cons ?_ (ih _ hlen)
      intro hmem
      have hx : x ∈ xs.filter (fun y => y != x) :=
        (eraseDupKeepFirst_sublist_len n _ hlen).subset hmem
      have := (List.mem_filter.mp hx).2
      simp at this

theorem eraseDupKeepFirst_nodup (l : List String) : (eraseDupKeepFirst l).Nodup :=
  eraseDupKeepFirst_nodup_len l.length l (le_refl _)

/-- C4 counterexample: at construction input availableFields a, a (and
defaultFields a), getAvailableFields returns the deduplicated list a, not
the original list element for element. -/
theorem accessors_counterexample :
    (construct ⟨["a", "a"], ["a"], none⟩ ⟨none, none, none⟩).map getAvailableFields =
      .ok ["a"] ∧
    (["a"] : List String) ≠ ["a", "a"] :=
  ⟨rfl, by decide⟩

/-- C4 amended: for every input accepted at construction, the accessors
return the originally supplied lists with duplicates removed — keeping
the first occurrence of each element — in the original input order: they
equal eraseDupKeepFirst of the input, and are in particular
duplicate-free, order-preserving sublists of the input with the same
members. -/
theorem accessors_return_input_dedup
    (opts : FieldSelectorOptions) (cfg : FieldSelectorConfig) (sel : FieldSelector)
    (hc : construct opts cfg = .ok sel) :
    getAvailableFields sel = eraseDupKeepFirst opts.availableFields ∧
    getDefaultFields sel = eraseDupKeepFirst opts.defaultFields ∧
    (getAvailableFields sel).Nodup ∧
    (getAvailableFields sel).Sublist opts.availableFields ∧
    (∀ x, x ∈ getAvailableFields sel ↔ x ∈ opts.availableFields) ∧
    (getDefaultFields sel).Nodup ∧
    (getDefaultFields sel).Sublist opts.defaultFields ∧
    (∀ x, x ∈ getDefaultFields sel ↔ x ∈ opts.defaultFields) := by
  obtain ⟨hav, hdf, -, -, -⟩ := construct_ok_inv hc
  have ha : getAvailableFields sel = eraseDupKeepFirst opts.availableFields := by
    unfold getAvailableFields
    rw [hav, jsSet_eq_eraseDupKeepFirst]
  have hd : getDefaultFields sel = eraseDupKeepFirst opts.defaultFields := by
    unfold getDefaultFields
    rw [hdf, jsSet_eq_eraseDupKeepFirst]
  refine ⟨ha, hd, ?_, ?_, ?_, ?_, ?_, ?_⟩
  · rw [ha]
    exact eraseDupKeepFirst_nodup _
  · rw [ha]
    exact eraseDupKeepFirst_sublist _
  · intro x
    unfold getAvailableFields
    rw [hav]
    exact mem_jsSet
  · rw [hd]
    exact eraseDupKeepFirst_nodup _
  · rw [hd]
    exact eraseDupKeepFirst_sublist _
  · intro x
    unfold getDefaultFields
    rw [hdf]
    exact mem_jsSet

/-- Witness for C4 amended at the duplicate input a, a. -/
theorem accessors_return_input_dedup_witness :
    getAvailableFields (FieldSelector.mk ["a"] ["a"] [] ⟨"fields", "x-fields", ","⟩) =
      eraseDupKeepFirst ["a", "a"] :=
  (accessors_return_input_dedup ⟨["a", "a"], ["a"], none⟩ ⟨none, none, none⟩
    (FieldSelector.mk ["a"] ["a"] [] ⟨"fields", "x-fields", ","⟩) rfl).1

/-- C5 counterexample: at a configuration whose default field is not
available, construction fails with the message the code and its tests
actually use, which is not the exact message the claim states. -/
theorem default_error_message_counterexample :
    construct ⟨["a"], ["b"], none⟩ ⟨none, none, none⟩ =
      .error "Default fields has values not present in available fields" ∧
    "Default fields has values not present in available fields" ≠
      "default fields contain values not present in available fields" :=
  ⟨rfl, by decide⟩

/-- C5 amended: whenever availableFields and defaultFields are non-empty
and some default field is not a member of available fields, construction
fails with exactly the message "Default fields has values not present in
available fields" — before any group validation, since the field groups
in opts are arbitrary here. -/
theorem construct_default_not_in_available
    (opts : FieldSelectorOptions) (cfg : FieldSelectorConfig)
    (h1 : opts.availableFields ≠ []) (h2 : opts.defaultFields ≠ [])
    (h3 : ∃ d ∈ opts.defaultFields, d ∉ opts.availableFields) :
    construct opts cfg =
      .error "Default fields has values not present in available fields" := by
  have hA : ¬ (opts.availableFields.isEmpty = true) := by
    simp [List.isEmpty_iff, h1]
  have hB : ¬ (opts.defaultFields.isEmpty = true) := by
    simp [List.isEmpty_iff, h2]
  have hC : (!(opts.defaultFields.all fun f => opts.availableFields.contains f)) = true := by
    obtain ⟨d, hd, hnd⟩ := h3
    simp only [Bool.not_eq_true', List.all_eq_false]
    exact ⟨d, hd, by simpa [List.contains, List.elem_iff] using hnd⟩
  unfold construct
  rw [if_neg hA, if_neg hB, if_pos hC]

/-- Witness for C5 amended at availableFields a, defaultFields b. -/
theorem construct_default_not_in_available_witness :
    construct ⟨["c"], ["d"], none⟩ ⟨none, none, none⟩ =
      .error "Default fields has values not present in available fields" :=
  construct_default_not_in_available ⟨["c"], ["d"], none⟩ ⟨none, none, none⟩
    (by decide) (by decide) ⟨"d", by decide, by decide⟩

theorem validateGroups_error_of_first_invalid (avail : List String) (g : String)
    (fs : List String) (post : List (String × List String)) :
    ∀ pre, (∀ p ∈ pre, ∀ f ∈ p.2, f ∈ avail) → (∃ f ∈ fs, f ∉ avail) →
      validateGroups avail (pre ++ (g, fs) :: post) =
        .error ("Group " ++ g ++ " contains invalid fields: " ++
          String.intercalate ", " fs) := by
  intro pre
  induction pre with
  | nil =>
    intro _ hbad
    have hall : (fs.all fun f => avail.contains f) = false := by
      obtain ⟨f, hf, hnf⟩ := hbad
      simp only [List.all_eq_false]
      exact ⟨f, hf, by simpa [List.contains, List.elem_iff] using hnf⟩
    rw [List.nil_append, validateGroups, if_neg (by simp only [hall]; simp)]
  | cons p pre ih =>
    intro hpre hbad
    obtain ⟨g0, fs0⟩ := p
    have hall : (fs0.all fun f => avail.contains f) = true := by
      simp only [List.all_eq_true]
      intro f hf
      have := hpre (g0, fs0) (List.mem_cons_self _ _) f hf
      simpa [List.contains, List.elem_iff] using this
    rw [List.cons_append, validateGroups, if_pos hall,
      ih (fun p hp => hpre p (List.mem_cons_of_mem _ hp)) hbad]

/-- C7: when the supplied group map is pre ++ (g, fs) :: post where every
group in pre is valid and fs contains a field outside available fields,
construction fails with an error naming g and listing all of g's fields
joined by a comma — the first invalid group in map order wins, whatever
comes after it. -/
theorem construct_invalid_group_error
    (opts : FieldSelectorOptions) (cfg : FieldSelectorConfig)
    (pre post : List (String × List String)) (g : String) (fs : List String)
    (h1 : opts.availableFields ≠ []) (h2 : opts.defaultFields ≠ [])
    (h3 : ∀ d ∈ opts.defaultFields, d ∈ opts.availableFields)
    (h4 : opts.fieldGroups = some (pre ++ (g, fs) :: post))
    (h5 : ∀ p ∈ pre, ∀ f ∈ p.2, f ∈ opts.availableFields)
    (h6 : ∃ f ∈ fs, f ∉ opts.availableFields) :
    construct opts cfg =
      .error ("Group " ++ g ++ " contains invalid fields: " ++
        String.intercalate ", " fs) := by
  have hA : ¬ (opts.availableFields.isEmpty = true) := by
    simp [List.isEmpty_iff, h1]
  have hB : ¬ (opts.defaultFields.isEmpty = true) := by
    simp [List.isEmpty_iff, h2]
  have hall : (opts.defaultFields.all fun f => opts.availableFields.contains f) = true := by
    simp only [List.all_eq_true]
    intro d hd
    simpa [List.contains, List.elem_iff] using h3 d hd
  have hgd : opts.fieldGroups.getD [] = pre ++ (g, fs) :: post := by
    rw [h4]
    rfl
  unfold construct
  rw [if_neg hA, if_neg hB, if_neg (by simp only [hall]; simp), hgd,
    validateGroups_error_of_first_invalid opts.availableFields g fs post pre h5 h6]

/-- Witness for C7: the second group is the first invalid one; the error
names it and lists all of its fields, valid and invalid alike, even
though a later group is invalid too. -/
theorem construct_invalid_group_error_witness :
    construct ⟨["id"], ["id"], some [("ok", ["id"]), ("bad", ["id", "x"]), ("worse", ["y"])]⟩
        ⟨none, none, none⟩ =
      .error ("Group " ++ "bad" ++ " contains invalid fields: " ++
        String.intercalate ", " ["id", "x"]) :=
  construct_invalid_group_error
    ⟨["id"], ["id"], some [("ok", ["id"]), ("bad", ["id", "x"]), ("worse", ["y"])]⟩
    ⟨none, none, none⟩ [("ok", ["id"])] [("worse", ["y"])] "bad" ["id", "x"]
    (by decide) (by decide) (by decide) rfl (by decide) ⟨"x", by decide, by decide⟩

/-- C6: filterObject keeps exactly the entries of the input object whose
key is in the field set — values unchanged — as an order-preserving
sublist of the input entry list; keys of the field set absent from the
object contribute nothing, and the empty field set yields the empty
object. -/
theorem filterObject_entries {V : Type} (obj : List (String × V)) (s : List String) :
    (∀ kv, kv ∈ filterObject obj s ↔ kv ∈ obj ∧ kv.1 ∈ s) ∧
    (filterObject obj s).Sublist obj ∧
    filterObject obj ([] : List String) = ([] : List (String × V)) := by
  refine ⟨?_, List.filter_sublist obj, ?_⟩
  · intro kv
    simp [filterObject, List.mem_filter, List.contains, List.elem_iff]
  · have : (fun kv : String × V => ([] : List String).contains kv.1) = fun _ => false := by
      funext kv
      rfl
    rw [filterObject, this]
    exact List.filter_false obj

/-- C8: filterObject is idempotent — filtering an already filtered object
with the same field set changes nothing. -/
theorem filterObject_idempotent {V : Type} (obj : List (String × V)) (s : List String) :
    filterObject (filterObject obj s) s = filterObject obj s := by
  unfold filterObject
  rw [List.filter_filter]
  simp [Bool.and_self]

end FieldSelectorModel
